import Mathlib

/-!
# Verification of the DSpace dashboard incremental log-parsing pipeline

Shallow embedding of `src/parse_dspace_edit_logs.py`: the line matcher
(`UPDATE_ITEM_RE` / `_parse_line`), the incremental file reader
(`_collect_events_for_file`), the deduplicating event store
(`_insert_events`), the file-cursor store (`_load_state` / `_save_state`)
and the pipeline driver (`main`), together with the SHA-1 hash and the
UTF-8 decode ("replace") / encode ("ignore") codecs the pipeline uses.

Text is modelled as a list of Unicode code points (`Str`), file contents
as a list of bytes (`Bytes`).  Database tables are modelled as lists of
rows; the unique constraint on `line_hash` and the primary key on
`(parser_name, file_path)` are reflected in the insert operations.
-/

/-- A Python `str`, as its list of Unicode code points. -/
abbrev Str := List Nat

/-- A Python `bytes` value, as its list of bytes. -/
abbrev Bytes := List Nat

/-- Code points of a Lean string literal (used to write concrete lines). -/
def strCodes (s : String) : Str := s.data.map Char.toNat

/-- ASCII whitespace, as recognised by Python's `str.strip` and by the
regex class `\s` on the ASCII range (the inputs in all claims are ASCII;
the source's classes are Unicode-aware but agree on ASCII). -/
def isPySpace (c : Nat) : Bool :=
  c = 32 || c = 9 || c = 10 || c = 11 || c = 12 || c = 13

/-- The regex class `\d` (ASCII digits). -/
def isDigit (c : Nat) : Bool := 48 ≤ c && c ≤ 57

/-- The regex class `\w` on the ASCII range: letters, digits, underscore. -/
def isWordChar (c : Nat) : Bool :=
  isDigit c || (65 ≤ c && c ≤ 90) || (97 ≤ c && c ≤ 122) || c = 95

/-- The regex class `[A-Fa-f0-9\-]` of `UPDATE_ITEM_RE`'s `item` group. -/
def isHexOrDash (c : Nat) : Bool :=
  isDigit c || (65 ≤ c && c ≤ 70) || (97 ≤ c && c ≤ 102) || c = 45

/-- Python `str.strip()` (ASCII whitespace range). -/
def pyStrip (s : Str) : Str :=
  ((s.dropWhile isPySpace).reverse.dropWhile isPySpace).reverse

/-- Consume a literal; returns the rest of the input on success. -/
def lit : Str → Str → Option Str
  | [], s => some s
  | _ :: _, [] => none
  | l :: ls, c :: cs => if c = l then lit ls cs else none

/-- Split off the maximal run of characters of class `p` (`List.span`,
written as a single-pass recursion). -/
def spanClass (p : Nat → Bool) : Str → Str × Str
  | [] => ([], [])
  | c :: cs =>
    if p c then
      match spanClass p cs with
      | (t, r) => (c :: t, r)
    else ([], c :: cs)

/-- Greedy `p+`: one or more characters of class `p` (maximal munch).
For every adjacent pair in `UPDATE_ITEM_RE` the class and the following
literal/class are disjoint, so the backtracking regex engine and this
deterministic maximal munch agree. -/
def munch1 (p : Nat → Bool) (s : Str) : Option (Str × Str) :=
  match spanClass p s with
  | ([], _) => none
  | (c :: cs, r) => some (c :: cs, r)

/-- Exactly `n` characters of class `p` (the regex `[...]{n}`). -/
def takeClass : Nat → (Nat → Bool) → Str → Option (Str × Str)
  | 0, _, s => some ([], s)
  | _ + 1, _, [] => none
  | n + 1, p, c :: cs =>
    if p c then
      match takeClass n p cs with
      | some (t, r) => some (c :: t, r)
      | none => none
    else none

/-- The fixed component marker of `UPDATE_ITEM_RE`. -/
def updateItemMarker : Str := strCodes "org.dspace.content.ItemServiceImpl"

/-- The `ts` group of `UPDATE_ITEM_RE`:
`(?P<ts>\d{4}-\d{2}-\d{2} \d{2}:\d{2}:\d{2})`, anchored at the start of
the input; returns the matched 19 characters and the rest. -/
def matchTsGroup (s : Str) : Option (Str × Str) :=
  match takeClass 4 isDigit s with
  | none => none
  | some (y, r) =>
  match lit (strCodes "-") r with
  | none => none
  | some r =>
  match takeClass 2 isDigit r with
  | none => none
  | some (mo, r) =>
  match lit (strCodes "-") r with
  | none => none
  | some r =>
  match takeClass 2 isDigit r with
  | none => none
  | some (d, r) =>
  match lit (strCodes " ") r with
  | none => none
  | some r =>
  match takeClass 2 isDigit r with
  | none => none
  | some (hh, r) =>
  match lit (strCodes ":") r with
  | none => none
  | some r =>
  match takeClass 2 isDigit r with
  | none => none
  | some (mi, r) =>
  match lit (strCodes ":") r with
  | none => none
  | some r =>
  match takeClass 2 isDigit r with
  | none => none
  | some (ss, r) =>
  some (y ++ strCodes "-" ++ mo ++ strCodes "-" ++ d ++ strCodes " "
    ++ hh ++ strCodes ":" ++ mi ++ strCodes ":" ++ ss, r)

/-- The part of `UPDATE_ITEM_RE` between the `ts` group and the `user`
group: `,\d+\s+\w+\s+\S+\s+\S+\s+org\.dspace\.content\.ItemServiceImpl`
`\s+@\s+`; returns the rest of the input after it. -/
def matchHeaderAfterTs (s : Str) : Option Str :=
  match lit (strCodes ",") s with
  | none => none
  | some r =>
  match munch1 isDigit r with
  | none => none
  | some (_, r) =>
  match munch1 isPySpace r with
  | none => none
  | some (_, r) =>
  match munch1 isWordChar r with
  | none => none
  | some (_, r) =>
  match munch1 isPySpace r with
  | none => none
  | some (_, r) =>
  match munch1 (fun c => !(isPySpace c)) r with
  | none => none
  | some (_, r) =>
  match munch1 isPySpace r with
  | none => none
  | some (_, r) =>
  match munch1 (fun c => !(isPySpace c)) r with
  | none => none
  | some (_, r) =>
  match munch1 isPySpace r with
  | none => none
  | some (_, r) =>
  match lit updateItemMarker r with
  | none => none
  | some r =>
  match munch1 isPySpace r with
  | none => none
  | some (_, r) =>
  match lit (strCodes "@") r with
  | none => none
  | some r =>
  match munch1 isPySpace r with
  | none => none
  | some (_, r) => some r

/-- Model of `UPDATE_ITEM_RE.match`: anchored prefix match of
`^(?P<ts>\d{4}-\d{2}-\d{2} \d{2}:\d{2}:\d{2}),\d+\s+\w+\s+\S+\s+\S+\s+`
`org\.dspace\.content\.ItemServiceImpl\s+@\s+`
`(?P<user>[^:]+)::update_item:item_id=(?P<item>[A-Fa-f0-9\-]{36})`,
returning the groups `(ts, user, item)`.  There is no `$` anchor: any
trailing text after the 36 `item` characters is ignored. -/
def matchUpdateItem (s : Str) : Option (Str × Str × Str) :=
  match matchTsGroup s with
  | none => none
  | some (ts, r) =>
  match matchHeaderAfterTs r with
  | none => none
  | some r =>
  match munch1 (fun c => !(c = 58)) r with
  | none => none
  | some (user, r) =>
  match lit (strCodes "::update_item:item_id=") r with
  | none => none
  | some r =>
  match takeClass 36 isHexOrDash r with
  | none => none
  | some (item, _) => some (ts, user, item)

/-- Truncation to a 32-bit word. -/
def w32 (x : Nat) : Nat := x % 4294967296

/-- Left rotation, by `s` bits, of a 32-bit word `x < 2^32`. -/
def rotl32 (s x : Nat) : Nat := w32 (x <<< s) ||| (x >>> (32 - s))

/-- Big-endian bytes (`n` of them) of a natural number. -/
def beBytes : Nat → Nat → Bytes
  | 0, _ => []
  | k + 1, v => beBytes k (v / 256) ++ [v % 256]

/-- SHA-1 / MD5 padding: append `0x80`, zeros to 56 mod 64, and the
64-bit big-endian bit length. -/
def sha1Pad (m : Bytes) : Bytes :=
  m ++ [128] ++ List.replicate ((119 - m.length % 64) % 64) 0
    ++ beBytes 8 (8 * m.length)

/-- Big-endian 32-bit words of a byte sequence (length a multiple of 4). -/
def beWords : Bytes → List Nat
  | a :: b :: c :: d :: rest => (((a * 256 + b) * 256 + c) * 256 + d) :: beWords rest
  | _ => []

/-- SHA-1 message schedule, most recent word first: prepend `n` words,
each `rotl1 (w[t-3] xor w[t-8] xor w[t-14] xor w[t-16])`. -/
def sha1ScheduleRev : Nat → List Nat → List Nat
  | 0, rws => rws
  | n + 1, rws =>
    sha1ScheduleRev n
      (rotl32 1 ((rws.getD 2 0 ^^^ rws.getD 7 0) ^^^ (rws.getD 13 0 ^^^ rws.getD 15 0)) :: rws)

/-- The 80 rounds of one SHA-1 block, over the scheduled words. -/
def sha1Rounds : Nat → Nat → Nat → Nat → Nat → Nat → List Nat →
    Nat × Nat × Nat × Nat × Nat
  | _, a, b, c, d, e, [] => (a, b, c, d, e)
  | t, a, b, c, d, e, w :: ws =>
    let f :=
      if t < 20 then (b &&& c) ||| ((4294967295 - b) &&& d)
      else if t < 40 then (b ^^^ c) ^^^ d
      else if t < 60 then ((b &&& c) ||| (b &&& d)) ||| (c &&& d)
      else (b ^^^ c) ^^^ d
    let k :=
      if t < 20 then 1518500249
      else if t < 40 then 1859775393
      else if t < 60 then 2400959708
      else 3395469782
    let temp := w32 (rotl32 5 a + f + e + k + w)
    sha1Rounds (t + 1) temp a (rotl32 30 b) c d ws

/-- Split into 64-byte blocks; the fuel (any bound on the number of
blocks, e.g. the byte length) keeps the recursion structural. -/
def toBlocksAux : Nat → Bytes → List Bytes
  | 0, _ => []
  | fuel + 1, bytes =>
    match bytes with
    | [] => []
    | x :: rest => (x :: rest).take 64 :: toBlocksAux fuel ((x :: rest).drop 64)

/-- The 64-byte blocks of a padded message. -/
def toBlocks (bytes : Bytes) : List Bytes := toBlocksAux bytes.length bytes

/-- Process 64-byte blocks, starting from chaining state `(h0, …, h4)`. -/
def sha1ProcessBlocks : Nat → Nat → Nat → Nat → Nat → List Bytes →
    Nat × Nat × Nat × Nat × Nat
  | h0, h1, h2, h3, h4, [] => (h0, h1, h2, h3, h4)
  | h0, h1, h2, h3, h4, block :: rest =>
    let words := (sha1ScheduleRev 64 (beWords block).reverse).reverse
    match sha1Rounds 0 h0 h1 h2 h3 h4 words with
    | (a, b, c, d, e) =>
      sha1ProcessBlocks (w32 (h0 + a)) (w32 (h1 + b)) (w32 (h2 + c))
        (w32 (h3 + d)) (w32 (h4 + e)) rest

/-- Model of `hashlib.sha1(m).digest()` as 20 bytes. -/
def sha1Digest (m : Bytes) : Bytes :=
  match sha1ProcessBlocks 1732584193 4023233417 2562383102 271733878 3285377520
      (toBlocks (sha1Pad m)) with
  | (h0, h1, h2, h3, h4) =>
    beBytes 4 h0 ++ beBytes 4 h1 ++ beBytes 4 h2 ++ beBytes 4 h3 ++ beBytes 4 h4

/-- Lower-case hex character (code point) of a value `< 16`. -/
def hexChar (v : Nat) : Nat := if v < 10 then 48 + v else 87 + v

/-- Model of `hashlib.sha1(m).hexdigest()` as a 40-character string. -/
def sha1Hex (m : Bytes) : Str :=
  (sha1Digest m).foldr (fun b acc => hexChar (b / 16) :: hexChar (b % 16) :: acc) []

/-- A UTF-8 continuation byte (`0x80`–`0xBF`). -/
def isContByte (c : Nat) : Bool := 128 ≤ c && c ≤ 191

/-- Allowed first continuation byte after a three-byte lead (`E0` demands
`A0`–`BF`, `ED` demands `80`–`9F`, the rest `80`–`BF`). -/
def cont1ok3 (b c : Nat) : Bool :=
  if b = 224 then 160 ≤ c && c ≤ 191
  else if b = 237 then 128 ≤ c && c ≤ 159
  else isContByte c

/-- Allowed first continuation byte after a four-byte lead (`F0` demands
`90`–`BF`, `F4` demands `80`–`8F`, the rest `80`–`BF`). -/
def cont1ok4 (b c : Nat) : Bool :=
  if b = 240 then 144 ≤ c && c ≤ 191
  else if b = 244 then 128 ≤ c && c ≤ 143
  else isContByte c

/-- CPython's `bytes.decode("utf-8", errors="replace")`: each maximal
valid subpart of an ill-formed sequence becomes one `U+FFFD` and the
offending byte is reprocessed.  The fuel (any bound on the byte length)
keeps the recursion structural; each step consumes at least one byte. -/
def utf8DecAux : Nat → Bytes → Str
  | 0, _ => []
  | _ + 1, [] => []
  | fuel + 1, b :: rest =>
    if b < 128 then b :: utf8DecAux fuel rest
    else if b < 194 then 65533 :: utf8DecAux fuel rest
    else if b < 224 then
      match rest with
      | [] => [65533]
      | c1 :: rest1 =>
        if isContByte c1 then ((b - 192) * 64 + (c1 - 128)) :: utf8DecAux fuel rest1
        else 65533 :: utf8DecAux fuel (c1 :: rest1)
    else if b < 240 then
      match rest with
      | [] => [65533]
      | c1 :: rest1 =>
        if cont1ok3 b c1 then
          match rest1 with
          | [] => [65533]
          | c2 :: rest2 =>
            if isContByte c2 then
              (((b - 224) * 64 + (c1 - 128)) * 64 + (c2 - 128)) :: utf8DecAux fuel rest2
            else 65533 :: utf8DecAux fuel (c2 :: rest2)
        else 65533 :: utf8DecAux fuel (c1 :: rest1)
    else if b < 245 then
      match rest with
      | [] => [65533]
      | c1 :: rest1 =>
        if cont1ok4 b c1 then
          match rest1 with
          | [] => [65533]
          | c2 :: rest2 =>
            if isContByte c2 then
              match rest2 with
              | [] => [65533]
              | c3 :: rest3 =>
                if isContByte c3 then
                  ((((b - 240) * 64 + (c1 - 128)) * 64 + (c2 - 128)) * 64 + (c3 - 128))
                    :: utf8DecAux fuel rest3
                else 65533 :: utf8DecAux fuel (c3 :: rest3)
            else 65533 :: utf8DecAux fuel (c2 :: rest2)
        else 65533 :: utf8DecAux fuel (c1 :: rest1)
    else 65533 :: utf8DecAux fuel rest

/-- Model of `raw.decode("utf-8", errors="replace")` in `_collect_events_for_file`. -/
def utf8DecodeReplace (bs : Bytes) : Str := utf8DecAux bs.length bs

/-- UTF-8 bytes of one code point; a lone surrogate encodes to nothing
(`errors="ignore"`; decoded text never contains surrogates anyway). -/
def utf8EncodeChar (c : Nat) : Bytes :=
  if c < 128 then [c]
  else if c < 2048 then [192 + c / 64, 128 + c % 64]
  else if c < 65536 then
    if 55296 ≤ c && c ≤ 57343 then []
    else [224 + c / 4096, 128 + (c / 64) % 64, 128 + c % 64]
  else [240 + c / 262144, 128 + (c / 4096) % 64, 128 + (c / 64) % 64, 128 + c % 64]

/-- Model of `str.encode("utf-8", errors="ignore")`. -/
def utf8EncodeIgnore (s : Str) : Bytes :=
  s.foldr (fun c acc => utf8EncodeChar c ++ acc) []

/-- Little-endian decimal digit characters of `n` (fuel-structured). -/
def decDigitsRevAux : Nat → Nat → Str
  | 0, _ => []
  | _ + 1, 0 => []
  | fuel + 1, n + 1 => (48 + (n + 1) % 10) :: decDigitsRevAux fuel ((n + 1) / 10)

/-- Python `str(n)` / `f"{n}"` for a natural number. -/
def natReprCodes (n : Nat) : Str :=
  if n = 0 then [48] else (decDigitsRevAux n n).reverse

/-- The f-string `f"{inode}:{line_start}:{line}"` hashed by
`_collect_events_for_file`.  Its third component is the *decoded* line
text, not the raw bytes. -/
def lineHashInput (inode lineStart : Nat) (line : Str) : Str :=
  natReprCodes inode ++ 58 :: natReprCodes lineStart ++ 58 :: line

/-- The `line_hash` computed by `_collect_events_for_file`:
`hashlib.sha1(f"{inode}:{line_start}:{line}".encode("utf-8", errors="ignore")).hexdigest()`. -/
def lineHash (inode lineStart : Nat) (line : Str) : Str :=
  sha1Hex (utf8EncodeIgnore (lineHashInput inode lineStart line))

/-- Fields of the `datetime` produced by `datetime.strptime(.., "%Y-%m-%d %H:%M:%S")`. -/
structure PyDateTime where
  year : Nat
  month : Nat
  day : Nat
  hour : Nat
  minute : Nat
  second : Nat
deriving DecidableEq, Repr

/-- Decimal value of a digit string. -/
def decVal (s : Str) : Nat := s.foldl (fun a c => a * 10 + (c - 48)) 0

/-- Model of `datetime.strptime(ts, "%Y-%m-%d %H:%M:%S")` on a `ts` group matched by
`UPDATE_ITEM_RE` (fixed positions `YYYY-MM-DD HH:MM:SS`).  Python raises
`ValueError` on out-of-range fields, aborting the whole run; no claim
exercises that path, so only the numeric extraction is modelled. -/
def strptimeYmdHms (ts : Str) : PyDateTime :=
  { year := decVal (ts.take 4)
    month := decVal ((ts.drop 5).take 2)
    day := decVal ((ts.drop 8).take 2)
    hour := decVal ((ts.drop 11).take 2)
    minute := decVal ((ts.drop 14).take 2)
    second := decVal ((ts.drop 17).take 2) }

/-- Model of `_parse_line`: strip the line, run `UPDATE_ITEM_RE.match`, and on a
match return `(strptime(ts), user.strip(), item.strip())`. -/
def parseLine (line : Str) : Option (PyDateTime × Str × Str) :=
  match matchUpdateItem (pyStrip line) with
  | none => none
  | some (ts, user, item) =>
    some (strptimeYmdHms ts, pyStrip user, pyStrip item)

/-- Model of `handle.readline()`: the bytes up to and including the next `\n`
(or to end of file), and the remaining bytes. -/
def readLine : Bytes → Bytes × Bytes
  | [] => ([], [])
  | b :: rest =>
    if b = 10 then ([b], rest)
    else
      match readLine rest with
      | (l, r) => (b :: l, r)

/-- A candidate Edit Event: one element of the `events` list built by
`_collect_events_for_file` (the tuple
`(event_ts, user_email, item_uuid, source_file, line_start, line_hash)`). -/
structure CandRow where
  event_ts : PyDateTime
  user_email : Str
  item_uuid : Str
  source_file : Str
  source_offset : Nat
  line_hash : Str
deriving DecidableEq, Repr

/-- The read loop of `_collect_events_for_file`: from file position `pos`
with `remaining` bytes ahead, read line by line to end of file; return
the candidate events in discovery order, the number of lines read and
the final file position.  The fuel (any bound on the remaining byte
count) keeps the recursion structural; every line consumes at least one
byte. -/
def collectAux (filePath : Str) (inode : Nat) :
    Nat → Nat → Bytes → List CandRow × Nat × Nat
  | _, pos, [] => ([], 0, pos)
  | 0, pos, _ => ([], 0, pos)
  | fuel + 1, pos, b :: bs =>
    match readLine (b :: bs) with
    | (raw, rest) =>
      let line := utf8DecodeReplace raw
      match collectAux filePath inode fuel (pos + raw.length) rest with
      | (rows, n, endOff) =>
        match parseLine line with
        | none => (rows, n + 1, endOff)
        | some (ts, user, item) =>
          ({ event_ts := ts, user_email := user, item_uuid := item,
             source_file := filePath, source_offset := pos,
             line_hash := lineHash inode pos line } :: rows, n + 1, endOff)

/-- Model of `_collect_events_for_file(file_path, inode, start_offset)` over a file
whose bytes are `content`: seek to `start_offset` (a seek past end of
file leaves the position there and reads nothing, as in Python) and scan
to end of file. -/
def collectEventsForFile (filePath : Str) (inode : Nat) (content : Bytes)
    (startOffset : Nat) : List CandRow × Nat × Nat :=
  collectAux filePath inode content.length startOffset (content.drop startOffset)

/-- A stored row of `dashboard_item_edit_events` (the columns written by
`_insert_events`; the serial `id` and the `created_at` default are
omitted — no claim mentions them). -/
structure EventRow where
  event_ts : PyDateTime
  user_email : Str
  item_uuid : Str
  action : Str
  source_file : Str
  source_offset : Nat
  line_hash : Str
deriving DecidableEq, Repr

/-- The row `_insert_events` stores for a candidate: the SQL fills
`action` with the literal `'update_item'`. -/
def storedRow (r : CandRow) : EventRow :=
  { event_ts := r.event_ts, user_email := r.user_email,
    item_uuid := r.item_uuid, action := strCodes "update_item",
    source_file := r.source_file, source_offset := r.source_offset,
    line_hash := r.line_hash }

/-- The event table (unique on `line_hash`), in insertion order. -/
abbrev EventTable := List EventRow

/-- One `insert … on conflict (line_hash) do nothing` statement of
`_insert_events`, with its `cur.rowcount > 0` outcome: if a stored row
already has this `line_hash` the table is unchanged and the insert
reports `false`; otherwise the row is appended and it reports `true`. -/
def insertIfNew (tbl : EventTable) (r : CandRow) : EventTable × Bool :=
  if tbl.any (fun e => e.line_hash = r.line_hash) then (tbl, false)
  else (tbl ++ [storedRow r], true)

/-- Model of `_insert_events`: insert each candidate in order, counting the rows
actually inserted (`inserted += 1` exactly when `cur.rowcount > 0`). -/
def insertEvents (tbl : EventTable) : List CandRow → EventTable × Nat
  | [] => (tbl, 0)
  | r :: rs =>
    match insertIfNew tbl r with
    | (tbl1, ok) =>
      match insertEvents tbl1 rs with
      | (tbl2, n) => (tbl2, if ok then n + 1 else n)

/-- The cursor table `dashboard_log_parser_state`: rows keyed by the
primary key `(parser_name, file_path)`, holding `(inode, file_offset)`.
`file_offset` is a signed `bigint` column; the `updated_at` column is
omitted — no claim mentions it. -/
abbrev CursorTable := List ((Str × Str) × (Nat × Int))

/-- Model of `_load_state`: the row for `(parser_name, file_path)`, if any.
The primary key guarantees at most one row per key. -/
def loadState : CursorTable → Str → Str → Option (Nat × Int)
  | [], _, _ => none
  | e :: es, parserName, filePath =>
    if e.1 = (parserName, filePath) then some e.2 else loadState es parserName filePath

/-- Model of `_save_state`: `insert … on conflict do update`, an upsert on
the primary key — overwrite the row for `(parser_name, file_path)` if one
exists, else append a new one. -/
def saveState : CursorTable → Str → Str → Nat → Int → CursorTable
  | [], parserName, filePath, inode, offset =>
    [((parserName, filePath), (inode, offset))]
  | e :: es, parserName, filePath, inode, offset =>
    if e.1 = (parserName, filePath) then (e.1, (inode, offset)) :: es
    else e :: saveState es parserName filePath inode offset

/-- One log file as the driver sees it: its path, its inode
(`os.stat().st_ino`) and its bytes (`os.stat().st_size` is the length). -/
structure FileInfo where
  path : Str
  inode : Nat
  content : Bytes
deriving DecidableEq, Repr

/-- The pipeline's two tables. -/
structure DBState where
  events : EventTable
  cursors : CursorTable
deriving DecidableEq, Repr

/-- The `start_offset` decision of `main` (lines 242–246): resume from the
stored offset exactly when a cursor row exists whose inode equals the
file's current inode and whose offset lies in `[0, file_size]`;
otherwise start from 0. -/
def computeStartOffset (state : Option (Nat × Int)) (inode fileSize : Nat) : Nat :=
  match state with
  | none => 0
  | some (stateInode, stateOffset) =>
    if stateInode = inode ∧ 0 ≤ stateOffset ∧ stateOffset ≤ (fileSize : Int) then
      stateOffset.toNat
    else 0

/-- The per-file summary counters printed by `main`. -/
structure FileReport where
  path : Str
  linesRead : Nat
  parsedCount : Nat
  insertedCount : Nat
  startOff : Nat
  endOff : Nat
deriving DecidableEq, Repr

/-- The body of `main`'s per-file loop, given that this file's write
transaction does not fail: load the cursor, choose the start offset,
scan the file, and — unless in dry-run mode — insert the events and save
the advanced cursor, both in the one transaction committed by
`conn.commit()` at line 257. -/
def processFile (dryRun : Bool) (parserName : Str) (db : DBState)
    (f : FileInfo) : DBState × FileReport :=
  let fileSize := f.content.length
  let state := loadState db.cursors parserName f.path
  let startOffset := computeStartOffset state f.inode fileSize
  match collectEventsForFile f.path f.inode f.content startOffset with
  | (rows, linesRead, endOff) =>
    if dryRun then
      (db, { path := f.path, linesRead := linesRead, parsedCount := rows.length,
             insertedCount := 0, startOff := startOffset, endOff := endOff })
    else
      match insertEvents db.events rows with
      | (events1, inserted) =>
        ({ events := events1,
           cursors := saveState db.cursors parserName f.path f.inode (endOff : Int) },
         { path := f.path, linesRead := linesRead, parsedCount := rows.length,
           insertedCount := inserted, startOff := startOffset, endOff := endOff })

/-- The loop of `main` over the matched files.  `failsOn` says whose write
transaction raises (a storage error in `_insert_events`/`_save_state`).
There is no `try`/`except` in the loop: on the first failure psycopg's
connection context manager rolls the open transaction back — the state
reverts to the last `conn.commit()`, i.e. to just before the failing
file — and the exception aborts the run, so no later file is processed.
Returns the final tables, the per-file reports of the files that
completed, and whether the run ran to completion. -/
def runFiles (failsOn : Str → Bool) (dryRun : Bool) (parserName : Str)
    (db : DBState) : List FileInfo → DBState × List FileReport × Bool
  | [] => (db, [], true)
  | f :: fs =>
    if !dryRun && failsOn f.path then (db, [], false)
    else
      match processFile dryRun parserName db f with
      | (db1, report) =>
        match runFiles failsOn dryRun parserName db1 fs with
        | (db2, reports, completed) => (db2, report :: reports, completed)

/-- The example line of the specification's grammar-precision property. -/
def specExampleLine : Str := strCodes
  "2024-03-01 10:15:00,123 INFO x.y.ItemServiceImpl @ alice@example.org::update_item:item_id=123e4567-e89b-12d3-a456-426614174000"

/-- A line that does match `UPDATE_ITEM_RE`: the component marker is the
full `org.dspace.content.ItemServiceImpl` and it is the fourth
whitespace-separated token after the timestamp. -/
def matchingLine : Str := strCodes
  "2024-03-01 10:15:00,123 INFO a b org.dspace.content.ItemServiceImpl @ alice@example.org::update_item:item_id=123e4567-e89b-12d3-a456-426614174000"

/-- Variant of `matchingLine` with the final character of the id removed: the id has
only 35 characters. -/
def line35 : Str := strCodes
  "2024-03-01 10:15:00,123 INFO a b org.dspace.content.ItemServiceImpl @ alice@example.org::update_item:item_id=123e4567-e89b-12d3-a456-42661417400"

/-- Variant of `matchingLine` with the `item_id=` marker removed. -/
def lineNoMarker : Str := strCodes
  "2024-03-01 10:15:00,123 INFO a b org.dspace.content.ItemServiceImpl @ alice@example.org::update_item:123e4567-e89b-12d3-a456-426614174000"

/-- Variant of `matchingLine` whose `item_id` field is followed by four
more hex characters: 40 consecutive characters of hex digits. -/
def lineOverlong : Str := strCodes
  "2024-03-01 10:15:00,123 INFO a b org.dspace.content.ItemServiceImpl @ alice@example.org::update_item:item_id=123e4567-e89b-12d3-a456-426614174000abcd"

/-- A log file path used by the concrete scenarios. -/
def logPath : Str := strCodes "/dspace/log/dspace.log"

/-- ASCII fragment before an invalid byte inside the `user` field. -/
def c8FragA : Str := strCodes
  "2024-03-01 10:15:00,123 INFO a b org.dspace.content.ItemServiceImpl @ al"

/-- ASCII fragment after the invalid byte, up to end of line. -/
def c8FragB : Str := strCodes
  "ice::update_item:item_id=123e4567-e89b-12d3-a456-426614174000\n"

/-- Raw line bytes with the invalid byte `0xFF` inside the `user` field;
it decodes (with replacement) to a line matched by `UPDATE_ITEM_RE`. -/
def rawLineFF : Bytes := utf8EncodeIgnore c8FragA ++ 255 :: utf8EncodeIgnore c8FragB

/-- The same raw line with `0xFE` instead: different raw bytes, but the
same decoded text. -/
def rawLineFE : Bytes := utf8EncodeIgnore c8FragA ++ 254 :: utf8EncodeIgnore c8FragB

/-- A log file holding one matched line followed by one unmatched line. -/
def logFile1 : FileInfo :=
  { path := logPath, inode := 7,
    content := utf8EncodeIgnore (matchingLine ++ [10])
      ++ utf8EncodeIgnore (strCodes "noise\n") }

/-- First file of the three-file partial-failure scenario. -/
def fileA : FileInfo :=
  { path := strCodes "/dspace/log/a.log", inode := 11,
    content := utf8EncodeIgnore (strCodes "alpha\n") }

/-- Second file of the scenario (the one whose transaction fails). -/
def fileB : FileInfo :=
  { path := strCodes "/dspace/log/b.log", inode := 12,
    content := utf8EncodeIgnore (strCodes "beta\n") }

/-- Third file of the scenario. -/
def fileC : FileInfo :=
  { path := strCodes "/dspace/log/c.log", inode := 13,
    content := utf8EncodeIgnore (strCodes "gamma\n") }

/-- Failure oracle: only `fileB`'s write transaction raises. -/
def failsOnB (p : Str) : Bool := p == fileB.path

/-- Fresh database: both tables empty. -/
def emptyDB : DBState := { events := [], cursors := [] }

/-- The same log file after the producer appended one more line. -/
def logFile1Grown : FileInfo :=
  { path := logPath, inode := 7,
    content := logFile1.content ++ utf8EncodeIgnore (strCodes "tail noise\n") }

/-- A concrete candidate row used by witnesses. -/
def wRow : CandRow :=
  { event_ts := ⟨2024, 3, 1, 10, 15, 0⟩,
    user_email := strCodes "alice@example.org",
    item_uuid := strCodes "123e4567-e89b-12d3-a456-426614174000",
    source_file := logPath, source_offset := 0,
    line_hash := strCodes "aabbccdd" }

example : parseLine specExampleLine = none := by decide
example :
    parseLine matchingLine =
      some (⟨2024, 3, 1, 10, 15, 0⟩, strCodes "alice@example.org",
        strCodes "123e4567-e89b-12d3-a456-426614174000") := by decide
example : parseLine line35 = none := by decide
example : parseLine lineNoMarker = none := by decide

/-! ## Cursor-store lemmas -/

theorem loadState_saveState_same (tbl : CursorTable) (pn fp : Str) (i : Nat) (o : Int) :
    loadState (saveState tbl pn fp i o) pn fp = some (i, o) := by
  induction tbl with
  | nil => simp [saveState, loadState]
  | cons e es ih =>
    by_cases he : e.1 = (pn, fp)
    · simp [saveState, loadState, he]
    · simpa [saveState, loadState, he] using ih

theorem loadState_saveState_other (tbl : CursorTable) (pn fp pn' fp' : Str)
    (i : Nat) (o : Int) (h : (pn', fp') ≠ (pn, fp)) :
    loadState (saveState tbl pn fp i o) pn' fp' = loadState tbl pn' fp' := by
  induction tbl with
  | nil =>
    have h' : ¬ ((pn, fp) = (pn', fp')) := fun hh => h hh.symm
    simp only [saveState, loadState, h', if_false]
  | cons e es ih =>
    by_cases he : e.1 = (pn, fp)
    · have h2 : ¬ (e.1 = (pn', fp')) := by
        rw [he]; exact fun hh => h hh.symm
      have h3 : ¬ (((pn, fp) : Str × Str) = (pn', fp')) := fun hh => h hh.symm
      simp only [saveState, he, if_true, loadState, h2, h3, if_false]
    · by_cases he2 : e.1 = (pn', fp')
      · simp only [saveState, he, if_false]
        simp only [loadState, he2, if_true]
      · simp only [saveState, he, if_false]
        simp only [loadState, he2, if_false]
        exact ih

theorem saveState_loadState_eq (tbl : CursorTable) (pn fp : Str) (i : Nat) (o : Int)
    (h : loadState tbl pn fp = some (i, o)) :
    saveState tbl pn fp i o = tbl := by
  induction tbl with
  | nil => simp [loadState] at h
  | cons e es ih =>
    by_cases he : e.1 = (pn, fp)
    · simp only [loadState, he, if_true, Option.some.injEq] at h
      simp only [saveState, he, if_true]
      rw [← h, ← he]
    · simp only [loadState, he, if_false] at h
      simp only [saveState, he, if_false, ih h]

/-! ## Event-store lemmas -/

theorem insertIfNew_dup (tbl : EventTable) (r : CandRow)
    (h : ∃ e ∈ tbl, e.line_hash = r.line_hash) :
    insertIfNew tbl r = (tbl, false) := by
  have : tbl.any (fun e => e.line_hash = r.line_hash) = true := by
    simpa [List.any_eq_true] using h
  simp [insertIfNew, this]

theorem insertIfNew_fresh (tbl : EventTable) (r : CandRow)
    (h : ¬ ∃ e ∈ tbl, e.line_hash = r.line_hash) :
    insertIfNew tbl r = (tbl ++ [storedRow r], true) := by
  have : ¬ tbl.any (fun e => e.line_hash = r.line_hash) = true := by
    simpa [List.any_eq_true] using h
  simp [insertIfNew, this]

theorem insertEvents_split (rows : List CandRow) :
    ∀ tbl : EventTable, ∃ extra, (insertEvents tbl rows).1 = tbl ++ extra ∧
      ∀ e ∈ extra, ∃ r ∈ rows, e = storedRow r := by
  induction rows with
  | nil => intro tbl; exact ⟨[], by simp [insertEvents], by simp⟩
  | cons r rs ih =>
    intro tbl
    by_cases h : ∃ e ∈ tbl, e.line_hash = r.line_hash
    · obtain ⟨extra, he, hm⟩ := ih tbl
      refine ⟨extra, ?_, ?_⟩
      · simp only [insertEvents, insertIfNew_dup tbl r h]
        rcases hrs : insertEvents tbl rs with ⟨tbl2, n⟩
        simpa [hrs] using (by simpa [hrs] using he)
      · intro e hein
        obtain ⟨r', hr', he'⟩ := hm e hein
        exact ⟨r', List.mem_cons_of_mem _ hr', he'⟩
    · obtain ⟨extra, he, hm⟩ := ih (tbl ++ [storedRow r])
      refine ⟨storedRow r :: extra, ?_, ?_⟩
      · simp only [insertEvents, insertIfNew_fresh tbl r h]
        rcases hrs : insertEvents (tbl ++ [storedRow r]) rs with ⟨tbl2, n⟩
        have := he
        rw [hrs] at this
        simpa [hrs, List.append_assoc] using this
      · intro e hein
        rcases List.mem_cons.mp hein with he1 | he2
        · exact ⟨r, List.mem_cons_self _ _, he1⟩
        · obtain ⟨r', hr', he'⟩ := hm e he2
          exact ⟨r', List.mem_cons_of_mem _ hr', he'⟩

theorem hash_mem_insertEvents (rows : List CandRow) (tbl : EventTable) (h : Str)
    (hm : ∃ e ∈ tbl, e.line_hash = h) :
    ∃ e ∈ (insertEvents tbl rows).1, e.line_hash = h := by
  obtain ⟨extra, heq, _⟩ := insertEvents_split rows tbl
  obtain ⟨e, he, hh⟩ := hm
  exact ⟨e, heq ▸ List.mem_append_left _ he, hh⟩

theorem insertEvents_all_mem (rows : List CandRow) :
    ∀ tbl : EventTable, ∀ r ∈ rows,
      ∃ e ∈ (insertEvents tbl rows).1, e.line_hash = r.line_hash := by
  induction rows with
  | nil => intro tbl r hr; cases hr
  | cons r rs ih =>
    intro tbl r' hr'
    rcases List.mem_cons.mp hr' with h1 | h2
    · subst h1
      by_cases h : ∃ e ∈ tbl, e.line_hash = r'.line_hash
      · simp only [insertEvents, insertIfNew_dup tbl r' h]
        rcases hrs : insertEvents tbl rs with ⟨tbl2, n⟩
        have := hash_mem_insertEvents rs tbl r'.line_hash h
        rw [hrs] at this
        simpa [hrs] using this
      · simp only [insertEvents, insertIfNew_fresh tbl r' h]
        rcases hrs : insertEvents (tbl ++ [storedRow r']) rs with ⟨tbl2, n⟩
        have hm : ∃ e ∈ tbl ++ [storedRow r'], e.line_hash = r'.line_hash :=
          ⟨storedRow r', List.mem_append_right _ (List.mem_singleton.mpr rfl), rfl⟩
        have := hash_mem_insertEvents rs (tbl ++ [storedRow r']) r'.line_hash hm
        rw [hrs] at this
        simpa [hrs] using this
    · rcases hin : insertIfNew tbl r with ⟨tbl1, ok⟩
      simp only [insertEvents, hin]
      rcases hrs : insertEvents tbl1 rs with ⟨tbl2, n⟩
      have := ih tbl1 r' h2
      rw [hrs] at this
      simpa [hrs] using this

theorem insertEvents_all_dup (rows : List CandRow) :
    ∀ tbl : EventTable, (∀ r ∈ rows, ∃ e ∈ tbl, e.line_hash = r.line_hash) →
      insertEvents tbl rows = (tbl, 0) := by
  induction rows with
  | nil => intro tbl _; rfl
  | cons r rs ih =>
    intro tbl h
    have h1 : ∃ e ∈ tbl, e.line_hash = r.line_hash := h r (List.mem_cons_self _ _)
    have h2 : ∀ r' ∈ rs, ∃ e ∈ tbl, e.line_hash = r'.line_hash :=
      fun r' hr' => h r' (List.mem_cons_of_mem _ hr')
    simp [insertEvents, insertIfNew_dup tbl r h1, ih tbl h2]

theorem insertEvents_replay (rows : List CandRow) (tbl : EventTable) :
    insertEvents (insertEvents tbl rows).1 rows = ((insertEvents tbl rows).1, 0) :=
  insertEvents_all_dup rows (insertEvents tbl rows).1
    (fun r hr => insertEvents_all_mem rows tbl r hr)

/-! ## Reader lemmas -/

theorem readLine_append (l : Bytes) : (readLine l).1 ++ (readLine l).2 = l := by
  induction l with
  | nil => rfl
  | cons b rest ih =>
    by_cases hb : b = 10
    · simp [readLine, hb]
    · rcases hrl : readLine rest with ⟨t, r⟩
      rw [hrl] at ih
      simp only [readLine, hb, if_false, hrl]
      simpa using ih

theorem readLine_fst_ne_nil (l : Bytes) (h : l ≠ []) : (readLine l).1 ≠ [] := by
  match l with
  | [] => exact absurd rfl h
  | b :: rest =>
    by_cases hb : b = 10
    · simp [readLine, hb]
    · rcases hrl : readLine rest with ⟨t, r⟩
      simp [readLine, hb, hrl]

theorem readLine_length (l : Bytes) :
    (readLine l).1.length + (readLine l).2.length = l.length := by
  have := congrArg List.length (readLine_append l)
  simpa using this

theorem collectAux_end (fp : Str) (i : Nat) :
    ∀ fuel pos bytes, List.length bytes ≤ fuel →
      (collectAux fp i fuel pos bytes).2.2 = pos + bytes.length := by
  intro fuel
  induction fuel with
  | zero =>
    intro pos bytes h
    have : bytes = [] := List.length_eq_zero.mp (Nat.le_zero.mp h)
    subst this
    simp [collectAux]
  | succ fuel ih =>
    intro pos bytes h
    match bytes with
    | [] => simp [collectAux]
    | b :: bs =>
      rcases hrl : readLine (b :: bs) with ⟨raw, rest⟩
      have hlen : raw.length + rest.length = (b :: bs).length := by
        have := readLine_length (b :: bs)
        rw [hrl] at this
        simpa using this
      have hne : raw ≠ [] := by
        have := readLine_fst_ne_nil (b :: bs) (by simp)
        rw [hrl] at this
        simpa using this
      have h1 : 1 ≤ raw.length := by
        rcases raw with _ | ⟨x, xs⟩
        · exact absurd rfl hne
        · simp
      have hrest : rest.length ≤ fuel := by
        simp only [List.length_cons] at hlen h
        omega
      simp only [collectAux, hrl]
      rcases hca : collectAux fp i fuel (pos + raw.length) rest with ⟨rows, n, e⟩
      have he : e = pos + raw.length + rest.length := by
        have := ih (pos + raw.length) rest hrest
        rw [hca] at this
        simpa using this
      simp only [List.length_cons] at hlen ⊢
      cases hp : parseLine (utf8DecodeReplace raw) <;>
        simp only [hca, hp] <;> omega

theorem collectAux_src_offset (fp : Str) (i : Nat) :
    ∀ fuel pos bytes r, r ∈ (collectAux fp i fuel pos bytes).1 →
      pos ≤ r.source_offset := by
  intro fuel
  induction fuel with
  | zero =>
    intro pos bytes r hr
    cases bytes <;> simp [collectAux] at hr
  | succ fuel ih =>
    intro pos bytes r hr
    match bytes with
    | [] => simp [collectAux] at hr
    | b :: bs =>
      rcases hrl : readLine (b :: bs) with ⟨raw, rest⟩
      simp only [collectAux, hrl] at hr
      rcases hca : collectAux fp i fuel (pos + raw.length) rest with ⟨rows, n, e⟩
      rw [hca] at hr
      have hrows : ∀ r' ∈ rows, pos + raw.length ≤ r'.source_offset := by
        intro r' hr'
        exact ih (pos + raw.length) rest r' (by rw [hca]; exact hr')
      cases hp : parseLine (utf8DecodeReplace raw) with
      | none =>
        rw [hp] at hr
        simp only [] at hr
        have := hrows r hr
        omega
      | some v =>
        rw [hp] at hr
        rcases v with ⟨ts, user, item⟩
        simp only [List.mem_cons] at hr
        rcases hr with h1 | h2
        · subst h1; simp
        · have := hrows r h2
          omega

theorem collect_end (fp : Str) (i : Nat) (content : Bytes) (start : Nat)
    (h : start ≤ content.length) :
    (collectEventsForFile fp i content start).2.2 = content.length := by
  have hd : (content.drop start).length = content.length - start := by
    simp
  have := collectAux_end fp i content.length start (content.drop start)
    (by rw [hd]; omega)
  rw [collectEventsForFile, this, hd]
  omega

theorem collect_from_end (fp : Str) (i : Nat) (content : Bytes) :
    collectEventsForFile fp i content content.length = ([], 0, content.length) := by
  rw [collectEventsForFile, List.drop_length]
  cases h : content.length <;> simp [collectAux]

theorem collect_offsets (fp : Str) (i : Nat) (content : Bytes) (start : Nat) :
    ∀ r ∈ (collectEventsForFile fp i content start).1, start ≤ r.source_offset :=
  fun r hr => collectAux_src_offset fp i content.length start (content.drop start) r hr

theorem computeStartOffset_le (st : Option (Nat × Int)) (i n : Nat) :
    computeStartOffset st i n ≤ n := by
  match st with
  | none => simp [computeStartOffset]
  | some (si, so) =>
    by_cases h : si = i ∧ 0 ≤ so ∧ so ≤ (n : Int)
    · simp only [computeStartOffset, h, if_true]
      exact Int.toNat_le.mpr h.2.2
    · simp [computeStartOffset, h]

/-! ## Pipeline lemmas -/

theorem processFile_not_dry (pn : Str) (db : DBState) (f : FileInfo) :
    processFile false pn db f =
      ({ events := (insertEvents db.events
            (collectEventsForFile f.path f.inode f.content
              (computeStartOffset (loadState db.cursors pn f.path) f.inode
                f.content.length)).1).1,
         cursors := saveState db.cursors pn f.path f.inode
           (((collectEventsForFile f.path f.inode f.content
              (computeStartOffset (loadState db.cursors pn f.path) f.inode
                f.content.length)).2.2 : Nat) : Int) },
       { path := f.path,
         linesRead := (collectEventsForFile f.path f.inode f.content
           (computeStartOffset (loadState db.cursors pn f.path) f.inode
             f.content.length)).2.1,
         parsedCount := (collectEventsForFile f.path f.inode f.content
           (computeStartOffset (loadState db.cursors pn f.path) f.inode
             f.content.length)).1.length,
         insertedCount := (insertEvents db.events
           (collectEventsForFile f.path f.inode f.content
             (computeStartOffset (loadState db.cursors pn f.path) f.inode
               f.content.length)).1).2,
         startOff := computeStartOffset (loadState db.cursors pn f.path) f.inode
           f.content.length,
         endOff := (collectEventsForFile f.path f.inode f.content
           (computeStartOffset (loadState db.cursors pn f.path) f.inode
             f.content.length)).2.2 }) := by
  simp only [processFile]
  rcases hc : collectEventsForFile f.path f.inode f.content
    (computeStartOffset (loadState db.cursors pn f.path) f.inode f.content.length)
    with ⟨rows, lines, endOff⟩
  simp only [Bool.false_eq_true, if_false]

theorem processFile_endOff (pn : Str) (db : DBState) (f : FileInfo) :
    (processFile false pn db f).2.endOff = f.content.length := by
  rw [processFile_not_dry]
  exact collect_end f.path f.inode f.content _ (computeStartOffset_le _ _ _)

theorem processFile_load_same (pn : Str) (db : DBState) (f : FileInfo) :
    loadState (processFile false pn db f).1.cursors pn f.path =
      some (f.inode, (f.content.length : Int)) := by
  have h := processFile_endOff pn db f
  rw [processFile_not_dry] at h ⊢
  simp only at h ⊢
  rw [h]
  exact loadState_saveState_same _ _ _ _ _

theorem processFile_load_other (pn : Str) (db : DBState) (f : FileInfo) (p : Str)
    (h : p ≠ f.path) :
    loadState (processFile false pn db f).1.cursors pn p =
      loadState db.cursors pn p := by
  rw [processFile_not_dry]
  simp only
  exact loadState_saveState_other _ _ _ _ _ _ _
    (fun hh => h (by simpa using congrArg Prod.snd hh))

theorem processFile_steady (pn : Str) (db : DBState) (f : FileInfo)
    (h : loadState db.cursors pn f.path = some (f.inode, (f.content.length : Int))) :
    processFile false pn db f =
      (db, { path := f.path, linesRead := 0, parsedCount := 0, insertedCount := 0,
             startOff := f.content.length, endOff := f.content.length }) := by
  rw [processFile_not_dry, h]
  have hs : computeStartOffset (some (f.inode, (f.content.length : Int))) f.inode
      f.content.length = f.content.length := by
    simp [computeStartOffset]
  rw [hs, collect_from_end]
  simp only [insertEvents]
  rw [saveState_loadState_eq db.cursors pn f.path f.inode _ h]
  simp

theorem runFiles_nofail_cons (pn : Str) (db : DBState) (f : FileInfo)
    (fs : List FileInfo) :
    runFiles (fun _ => false) false pn db (f :: fs) =
      ((runFiles (fun _ => false) false pn (processFile false pn db f).1 fs).1,
       (processFile false pn db f).2 ::
         (runFiles (fun _ => false) false pn (processFile false pn db f).1 fs).2.1,
       (runFiles (fun _ => false) false pn (processFile false pn db f).1 fs).2.2) := by
  simp only [runFiles, Bool.and_false, Bool.false_eq_true, if_false]

theorem runFiles_frame (pn : Str) (p : Str) :
    ∀ (files : List FileInfo) (db : DBState), (∀ f ∈ files, f.path ≠ p) →
      loadState (runFiles (fun _ => false) false pn db files).1.cursors pn p =
        loadState db.cursors pn p := by
  intro files
  induction files with
  | nil => intro db _; simp [runFiles]
  | cons f fs ih =>
    intro db h
    rw [runFiles_nofail_cons]
    have h1 : p ≠ f.path := fun hh => h f (List.mem_cons_self _ _) hh.symm
    calc loadState (runFiles (fun _ => false) false pn
            (processFile false pn db f).1 fs).1.cursors pn p
        = loadState (processFile false pn db f).1.cursors pn p :=
          ih _ (fun g hg => h g (List.mem_cons_of_mem _ hg))
      _ = loadState db.cursors pn p := processFile_load_other pn db f p h1

theorem runFiles_sets_cursors (pn : Str) :
    ∀ (files : List FileInfo) (db : DBState),
      (files.map FileInfo.path).Nodup →
      ∀ f ∈ files,
        loadState (runFiles (fun _ => false) false pn db files).1.cursors pn f.path =
          some (f.inode, (f.content.length : Int)) := by
  intro files
  induction files with
  | nil => intro db _ f hf; cases hf
  | cons g gs ih =>
    intro db hnd f hf
    have hnd1 : (gs.map FileInfo.path).Nodup := (List.nodup_cons.mp hnd).2
    have hnotin : g.path ∉ gs.map FileInfo.path := (List.nodup_cons.mp hnd).1
    rw [runFiles_nofail_cons]
    rcases List.mem_cons.mp hf with h1 | h2
    · subst h1
      have hframe : ∀ f' ∈ gs, f'.path ≠ f.path := by
        intro f' hf' hh
        exact hnotin (hh ▸ List.mem_map_of_mem FileInfo.path hf')
      calc loadState (runFiles (fun _ => false) false pn
              (processFile false pn db f).1 gs).1.cursors pn f.path
          = loadState (processFile false pn db f).1.cursors pn f.path :=
            runFiles_frame pn f.path gs _ hframe
        _ = some (f.inode, (f.content.length : Int)) := processFile_load_same pn db f
    · exact ih (processFile false pn db g).1 hnd1 f h2

theorem runFiles_steady (pn : Str) :
    ∀ (files : List FileInfo) (db : DBState),
      (∀ f ∈ files, loadState db.cursors pn f.path =
        some (f.inode, (f.content.length : Int))) →
      runFiles (fun _ => false) false pn db files =
        (db,
         files.map (fun f =>
           { path := f.path, linesRead := 0, parsedCount := 0, insertedCount := 0,
             startOff := f.content.length, endOff := f.content.length }),
         true) := by
  intro files
  induction files with
  | nil => intro db _; simp [runFiles]
  | cons f fs ih =>
    intro db h
    rw [runFiles_nofail_cons]
    have hf := processFile_steady pn db f (h f (List.mem_cons_self _ _))
    rw [hf]
    rw [ih db (fun g hg => h g (List.mem_cons_of_mem _ hg))]
    simp

/-! ## Claims -/

/-- C1: each per-row insert of `_insert_events` returns `true` and appends
the row exactly when no stored event carries the same `line_hash`
(dedup key); when a row with that key exists the insert is a silent
no-op — the table is unchanged and it reports `false` — and therefore
re-reading a byte range already persisted (the same collect output
inserted again, as after a replay from the same `prior_offset`) inserts
zero new events and leaves the table unchanged. -/
theorem c1_insert_if_new_dedup (tbl : EventTable) (r : CandRow) :
    ((∃ e ∈ tbl, e.line_hash = r.line_hash) → insertIfNew tbl r = (tbl, false)) ∧
    ((¬ ∃ e ∈ tbl, e.line_hash = r.line_hash) →
      insertIfNew tbl r = (tbl ++ [storedRow r], true)) ∧
    ∀ (fp : Str) (i : Nat) (content : Bytes) (start : Nat),
      insertEvents
          ((insertEvents tbl (collectEventsForFile fp i content start).1).1)
          (collectEventsForFile fp i content start).1 =
        ((insertEvents tbl (collectEventsForFile fp i content start).1).1, 0) :=
  ⟨insertIfNew_dup tbl r, insertIfNew_fresh tbl r,
   fun _ _ _ _ => insertEvents_replay _ tbl⟩

/-- Witness for C1 at concrete inputs: a fresh insert appends and reports
`true`; re-inserting the same key is a no-op reporting `false`; replaying
the collect output of `logFile1` inserts zero events. -/
theorem c1_insert_if_new_dedup_witness :
    insertIfNew [storedRow wRow] wRow = ([storedRow wRow], false) ∧
    insertIfNew [] wRow = ([] ++ [storedRow wRow], true) ∧
    insertEvents
        ((insertEvents [] (collectEventsForFile logPath 7 logFile1.content 0).1).1)
        (collectEventsForFile logPath 7 logFile1.content 0).1 =
      ((insertEvents [] (collectEventsForFile logPath 7 logFile1.content 0).1).1, 0) :=
  ⟨(c1_insert_if_new_dedup [storedRow wRow] wRow).1 (by decide),
   (c1_insert_if_new_dedup [] wRow).2.1 (by decide),
   (c1_insert_if_new_dedup [] wRow).2.2 logPath 7 logFile1.content 0⟩

/-- C2: running the whole pipeline a second time, immediately after a
successful run, over the same file set (distinct paths, as a glob yields)
with identical contents, identities and sizes, returns the first run's
tables exactly unchanged — zero events inserted for every file, every
stored cursor `(inode, offset)` as before — and completes. -/
theorem c2_second_run_noop (pn : Str) (db : DBState) (files : List FileInfo)
    (hnd : (files.map FileInfo.path).Nodup) :
    runFiles (fun _ => false) false pn
        ((runFiles (fun _ => false) false pn db files).1) files =
      ((runFiles (fun _ => false) false pn db files).1,
       files.map (fun f =>
         { path := f.path, linesRead := 0, parsedCount := 0, insertedCount := 0,
           startOff := f.content.length, endOff := f.content.length }),
       true) :=
  runFiles_steady pn files (runFiles (fun _ => false) false pn db files).1
    (fun f hf => runFiles_sets_cursors pn files db hnd f hf)

/-- Witness for C2: a concrete one-file run (the file holds one matched
line); the second run returns the first run's state unchanged with a
zero-insert report. -/
theorem c2_second_run_noop_witness :
    ([logFile1].map FileInfo.path).Nodup ∧
    runFiles (fun _ => false) false (strCodes "p")
        ((runFiles (fun _ => false) false (strCodes "p") ⟨[], []⟩ [logFile1]).1)
        [logFile1] =
      ((runFiles (fun _ => false) false (strCodes "p") ⟨[], []⟩ [logFile1]).1,
       [logFile1].map (fun f =>
         { path := f.path, linesRead := 0, parsedCount := 0, insertedCount := 0,
           startOff := f.content.length, endOff := f.content.length }),
       true) :=
  ⟨by decide, c2_second_run_noop (strCodes "p") ⟨[], []⟩ [logFile1] (by decide)⟩

/-- C3: the reader's start offset is the stored `prior_offset` exactly
when a cursor exists whose inode equals the file's current inode and
whose offset lies within `[0, file_size]`; with no cursor, a changed
inode, a negative stored offset, or a stored offset exceeding the file
size, the start offset is `0` and the file is re-read from the
beginning.  The last conjunct ties this to the driver: the per-file
report's `startOff` is exactly this decision applied to the loaded
cursor. -/
theorem c3_start_offset_decision (state : Option (Nat × Int)) (inode fileSize : Nat) :
    (∀ si so, state = some (si, so) →
      ((si = inode ∧ 0 ≤ so ∧ so ≤ (fileSize : Int)) →
        computeStartOffset state inode fileSize = so.toNat) ∧
      (¬ (si = inode ∧ 0 ≤ so ∧ so ≤ (fileSize : Int)) →
        computeStartOffset state inode fileSize = 0)) ∧
    (state = none → computeStartOffset state inode fileSize = 0) ∧
    ∀ (dry : Bool) (pn : Str) (db : DBState) (f : FileInfo),
      (processFile dry pn db f).2.startOff =
        computeStartOffset (loadState db.cursors pn f.path) f.inode
          f.content.length := by
  refine ⟨?_, ?_, ?_⟩
  · intro si so hst
    subst hst
    constructor
    · intro h
      simp [computeStartOffset, h]
    · intro h
      simp [computeStartOffset, h]
  · intro hst
    subst hst
    rfl
  · intro dry pn db f
    simp only [processFile]
    rcases hc : collectEventsForFile f.path f.inode f.content
      (computeStartOffset (loadState db.cursors pn f.path) f.inode f.content.length)
      with ⟨rows, lines, endOff⟩
    cases dry
    · simp only [Bool.false_eq_true, if_false]
    · simp

/-- Witness for C3: a cursor at offset 5000 for a 1200-byte file with
the same inode restarts at 0; a valid cursor (offset 500, same inode)
resumes at 500; a missing cursor starts at 0. -/
theorem c3_start_offset_decision_witness :
    computeStartOffset (some (7, (5000 : Int))) 7 1200 = 0 ∧
    computeStartOffset (some (7, (500 : Int))) 7 1200 = (500 : Int).toNat ∧
    computeStartOffset none 7 1200 = 0 :=
  ⟨((c3_start_offset_decision (some (7, (5000 : Int))) 7 1200).1 7 5000 rfl).2
     (by decide),
   ((c3_start_offset_decision (some (7, (500 : Int))) 7 1200).1 7 500 rfl).1
     (by decide),
   (c3_start_offset_decision none 7 1200).2.1 rfl⟩

/-- C5: per-file transactionality.  The events insert and the cursor save
of one file form a single transaction (one `conn.commit()` after both):
if the file's write transaction fails the database is exactly as before
— neither the events nor the cursor changed — and if it commits, both
the inserted rows and the advanced cursor are present; no mixed state is
reachable. -/
theorem c5_per_file_transaction (failsOn : Str → Bool) (pn : Str) (db : DBState)
    (f : FileInfo) :
    ((runFiles failsOn false pn db [f]).2.2 = false →
      (runFiles failsOn false pn db [f]).1 = db) ∧
    ((runFiles failsOn false pn db [f]).2.2 = true →
      (runFiles failsOn false pn db [f]).1 =
        { events := (insertEvents db.events
            (collectEventsForFile f.path f.inode f.content
              (computeStartOffset (loadState db.cursors pn f.path) f.inode
                f.content.length)).1).1,
          cursors := saveState db.cursors pn f.path f.inode
            (((collectEventsForFile f.path f.inode f.content
              (computeStartOffset (loadState db.cursors pn f.path) f.inode
                f.content.length)).2.2 : Nat) : Int) }) := by
  by_cases hb : failsOn f.path = true
  · constructor
    · intro _
      simp [runFiles, hb]
    · intro habs
      simp [runFiles, hb] at habs
  · have hb2 : failsOn f.path = false := Bool.eq_false_iff.mpr hb
    rcases hp : processFile false pn db f with ⟨db1, rep⟩
    have hrun : runFiles failsOn false pn db [f] = (db1, [rep], true) := by
      simp [runFiles, hb2, hp]
    constructor
    · intro habs
      rw [hrun] at habs
      simp at habs
    · intro _
      rw [hrun]
      have hnd := processFile_not_dry pn db f
      rw [hp] at hnd
      exact congrArg Prod.fst hnd

/-- Witness for C5: with the concrete failure oracle, `fileB`'s run fails
and leaves the fresh database untouched, while `fileA`'s run commits both
the (empty) insert and the advanced cursor. -/
theorem c5_per_file_transaction_witness :
    ((runFiles failsOnB false (strCodes "p") emptyDB [fileB]).2.2 = false ∧
      (runFiles failsOnB false (strCodes "p") emptyDB [fileB]).1 = emptyDB) ∧
    ((runFiles failsOnB false (strCodes "p") emptyDB [fileA]).2.2 = true ∧
      (runFiles failsOnB false (strCodes "p") emptyDB [fileA]).1 =
        { events := (insertEvents emptyDB.events
            (collectEventsForFile fileA.path fileA.inode fileA.content
              (computeStartOffset (loadState emptyDB.cursors (strCodes "p") fileA.path)
                fileA.inode fileA.content.length)).1).1,
          cursors := saveState emptyDB.cursors (strCodes "p") fileA.path fileA.inode
            (((collectEventsForFile fileA.path fileA.inode fileA.content
              (computeStartOffset (loadState emptyDB.cursors (strCodes "p") fileA.path)
                fileA.inode fileA.content.length)).2.2 : Nat) : Int) }) :=
  ⟨⟨by decide,
    (c5_per_file_transaction failsOnB (strCodes "p") emptyDB fileB).1 (by decide)⟩,
   ⟨by decide,
    (c5_per_file_transaction failsOnB (strCodes "p") emptyDB fileA).2 (by decide)⟩⟩

/-- C4: forward-only progress over two consecutive committed runs on the
same path with unchanged identity, when the stored offset (the first
run's end offset) still lies within the file's size: the end offset
never decreases, and every event row appended by the second run has a
`source_offset` at or beyond the first run's end offset — nothing below
the prior end offset is re-inserted as new. -/
theorem c4_forward_progress (pn : Str) (db : DBState) (f1 f2 : FileInfo)
    (hpath : f2.path = f1.path) (hinode : f2.inode = f1.inode)
    (hsize : (processFile false pn db f1).2.endOff ≤ f2.content.length) :
    (processFile false pn db f1).2.endOff ≤
      (processFile false pn (processFile false pn db f1).1 f2).2.endOff ∧
    ∃ extra,
      (processFile false pn (processFile false pn db f1).1 f2).1.events =
        (processFile false pn db f1).1.events ++ extra ∧
      ∀ e ∈ extra, (processFile false pn db f1).2.endOff ≤ e.source_offset := by
  have hend1 : (processFile false pn db f1).2.endOff = f1.content.length :=
    processFile_endOff pn db f1
  rw [hend1] at hsize ⊢
  have hload : loadState (processFile false pn db f1).1.cursors pn f2.path =
      some (f1.inode, (f1.content.length : Int)) := by
    rw [hpath]; exact processFile_load_same pn db f1
  have hstart : computeStartOffset
      (loadState (processFile false pn db f1).1.cursors pn f2.path) f2.inode
      f2.content.length = f1.content.length := by
    rw [hload]
    have hcond : f1.inode = f2.inode ∧ (0 : Int) ≤ (f1.content.length : Int) ∧
        ((f1.content.length : Int) ≤ (f2.content.length : Int)) :=
      ⟨hinode.symm, by exact_mod_cast Nat.zero_le _, by exact_mod_cast hsize⟩
    simp [computeStartOffset, hcond]
  constructor
  · rw [processFile_endOff pn _ f2]
    exact hsize
  · rw [processFile_not_dry pn (processFile false pn db f1).1 f2]
    obtain ⟨extra, heq, hmem⟩ := insertEvents_split
      (collectEventsForFile f2.path f2.inode f2.content
        (computeStartOffset
          (loadState (processFile false pn db f1).1.cursors pn f2.path) f2.inode
          f2.content.length)).1
      (processFile false pn db f1).1.events
    refine ⟨extra, heq, ?_⟩
    intro e he
    obtain ⟨r, hr, herr⟩ := hmem e he
    have hoff := collect_offsets f2.path f2.inode f2.content
      (computeStartOffset
        (loadState (processFile false pn db f1).1.cursors pn f2.path) f2.inode
        f2.content.length) r hr
    rw [hstart] at hoff
    rw [herr]
    simpa [storedRow] using hoff

set_option maxRecDepth 1000000 in
/-- Witness for C4 at a concrete growing file: the second committed run
on `logFile1Grown` starts where the run on `logFile1` ended. -/
theorem c4_forward_progress_witness :
    (logFile1Grown.path = logFile1.path ∧ logFile1Grown.inode = logFile1.inode ∧
      (processFile false (strCodes "p") emptyDB logFile1).2.endOff ≤
        logFile1Grown.content.length) ∧
    ((processFile false (strCodes "p") emptyDB logFile1).2.endOff ≤
      (processFile false (strCodes "p")
        (processFile false (strCodes "p") emptyDB logFile1).1 logFile1Grown).2.endOff ∧
    ∃ extra,
      (processFile false (strCodes "p")
          (processFile false (strCodes "p") emptyDB logFile1).1 logFile1Grown).1.events =
        (processFile false (strCodes "p") emptyDB logFile1).1.events ++ extra ∧
      ∀ e ∈ extra,
        (processFile false (strCodes "p") emptyDB logFile1).2.endOff ≤
          e.source_offset) :=
  ⟨⟨by decide, by decide, by decide⟩,
   c4_forward_progress (strCodes "p") emptyDB logFile1 logFile1Grown
     (by decide) (by decide) (by decide)⟩

/-- C6 counterexample: in a run over three files where only the second
file's write transaction fails, the run does not complete and the third
file's cursor is never committed (the first file's is) — refuting the
claim that the driver records the failure and continues so that the
third file still commits. -/
theorem c6_counterexample :
    (runFiles failsOnB false (strCodes "p") emptyDB [fileA, fileB, fileC]).2.2 = false ∧
    loadState (runFiles failsOnB false (strCodes "p") emptyDB
      [fileA, fileB, fileC]).1.cursors (strCodes "p") fileC.path = none ∧
    loadState (runFiles failsOnB false (strCodes "p") emptyDB
      [fileA, fileB, fileC]).1.cursors (strCodes "p") fileA.path =
      some (fileA.inode, (fileA.content.length : Int)) :=
  ⟨by decide, by decide, by decide⟩

/-- C6 (amended): `main` has no `try`/`except` around its per-file loop,
so when one file's write transaction fails the exception propagates: the
failing file's transaction is rolled back (its cursor and events
untouched), the files before it keep their committed events and cursors
(the run behaves on them exactly like a failure-free run), and the run
aborts — the files after the failing one are not processed. -/
theorem c6_failure_aborts_run (failsOn : Str → Bool) (pn : Str) :
    ∀ (fs1 : List FileInfo) (db : DBState) (f : FileInfo) (fs2 : List FileInfo),
      (∀ g ∈ fs1, failsOn g.path = false) → failsOn f.path = true →
      runFiles failsOn false pn db (fs1 ++ f :: fs2) =
        ((runFiles (fun _ => false) false pn db fs1).1,
         (runFiles (fun _ => false) false pn db fs1).2.1,
         false) := by
  intro fs1
  induction fs1 with
  | nil =>
    intro db f fs2 _ hf
    simp [runFiles, hf]
  | cons g gs ih =>
    intro db f fs2 hok hf
    have hg : failsOn g.path = false := hok g (List.mem_cons_self _ _)
    rcases hp : processFile false pn db g with ⟨db1, rep⟩
    have hstep : runFiles failsOn false pn db (g :: (gs ++ f :: fs2)) =
        ((runFiles failsOn false pn db1 (gs ++ f :: fs2)).1,
         rep :: (runFiles failsOn false pn db1 (gs ++ f :: fs2)).2.1,
         (runFiles failsOn false pn db1 (gs ++ f :: fs2)).2.2) := by
      simp [runFiles, hg, hp]
    have hrec := ih db1 f fs2 (fun x hx => hok x (List.mem_cons_of_mem _ hx)) hf
    rw [List.cons_append, hstep, hrec, runFiles_nofail_cons, hp]

/-- Witness for C6 (amended) at the concrete three-file scenario. -/
theorem c6_failure_aborts_run_witness :
    runFiles failsOnB false (strCodes "p") emptyDB ([fileA] ++ fileB :: [fileC]) =
      ((runFiles (fun _ => false) false (strCodes "p") emptyDB [fileA]).1,
       (runFiles (fun _ => false) false (strCodes "p") emptyDB [fileA]).2.1,
       false) :=
  c6_failure_aborts_run failsOnB (strCodes "p") [fileA] emptyDB fileB [fileC]
    (by decide) (by decide)

/-- C9: a dry-run performs the full scan but writes nothing: whatever the
failure oracle, a dry run returns the database exactly unchanged and
completes; and per file its report carries the same lines-read, matched
and offset figures as a real (committed) run from the same state would,
with `insertedCount` pinned to `0`. -/
theorem c9_dry_run_writes_nothing (failsOn : Str → Bool) (pn : Str) :
    (∀ (files : List FileInfo) (db : DBState),
      (runFiles failsOn true pn db files).1 = db ∧
      (runFiles failsOn true pn db files).2.2 = true) ∧
    ∀ (db : DBState) (f : FileInfo),
      (processFile true pn db f).1 = db ∧
      (processFile true pn db f).2 =
        { (processFile false pn db f).2 with insertedCount := 0 } := by
  have hdry : ∀ (db : DBState) (f : FileInfo),
      (processFile true pn db f).1 = db ∧
      (processFile true pn db f).2 =
        { (processFile false pn db f).2 with insertedCount := 0 } := by
    intro db f
    simp only [processFile]
    rcases hc : collectEventsForFile f.path f.inode f.content
      (computeStartOffset (loadState db.cursors pn f.path) f.inode f.content.length)
      with ⟨rows, lines, endOff⟩
    rcases hi : insertEvents db.events rows with ⟨ev, n⟩
    simp
  refine ⟨?_, hdry⟩
  intro files
  induction files with
  | nil => intro db; simp [runFiles]
  | cons f fs ih =>
    intro db
    have h1 : (processFile true pn db f).1 = db := (hdry db f).1
    have hstep : runFiles failsOn true pn db (f :: fs) =
        ((runFiles failsOn true pn (processFile true pn db f).1 fs).1,
         (processFile true pn db f).2 ::
           (runFiles failsOn true pn (processFile true pn db f).1 fs).2.1,
         (runFiles failsOn true pn (processFile true pn db f).1 fs).2.2) := by
      simp only [runFiles, Bool.not_true, Bool.false_and, Bool.false_eq_true, if_false]
    rw [hstep, h1]
    exact ⟨(ih db).1, (ih db).2⟩

/-- C7 counterexample: the specification's example line, whose component
marker is `x.y.ItemServiceImpl` with only two tokens between the log
level and the `@`, does not match `UPDATE_ITEM_RE` — `_parse_line`
returns no match, not the claimed tuple. -/
theorem c7_counterexample : parseLine specExampleLine = none := by decide

/-- C7 (amended): a line carrying the full marker
`org.dspace.content.ItemServiceImpl` as the fourth whitespace-separated
token after the timestamp matches and yields
`(2024-03-01T10:15:00, "alice@example.org",
"123e4567-e89b-12d3-a456-426614174000")`, while the same line with only
35 id characters, or with the `item_id=` marker removed, yields no
match. -/
theorem c7_grammar_precision :
    parseLine matchingLine =
      some (⟨2024, 3, 1, 10, 15, 0⟩, strCodes "alice@example.org",
        strCodes "123e4567-e89b-12d3-a456-426614174000") ∧
    parseLine line35 = none ∧
    parseLine lineNoMarker = none :=
  ⟨by decide, by decide, by decide⟩

/-- C10: the pattern is not anchored after the 36-character id group, so
the matcher accepts `matchingLine` followed by anything at all — in
particular by further hex characters — and always extracts exactly the
first 36 id characters; concretely, the line whose id field holds 40
consecutive hex characters still parses, with the id silently truncated
to its first 36 characters. -/
theorem c10_unanchored_id (rest : List Nat) :
    matchUpdateItem (matchingLine ++ rest) =
      some (strCodes "2024-03-01 10:15:00", strCodes "alice@example.org",
        strCodes "123e4567-e89b-12d3-a456-426614174000") ∧
    parseLine lineOverlong =
      some (⟨2024, 3, 1, 10, 15, 0⟩, strCodes "alice@example.org",
        strCodes "123e4567-e89b-12d3-a456-426614174000") :=
  ⟨rfl, by decide⟩

/-! ## Decimal representation and hash-input lemmas (for C8) -/

theorem decDigitsRevAux_digits :
    ∀ fuel n c, c ∈ decDigitsRevAux fuel n → 48 ≤ c ∧ c ≤ 57 := by
  intro fuel
  induction fuel with
  | zero => intro n c hc; simp [decDigitsRevAux] at hc
  | succ fuel ih =>
    intro n c hc
    match n with
    | 0 => simp [decDigitsRevAux] at hc
    | m + 1 =>
      simp only [decDigitsRevAux, List.mem_cons] at hc
      rcases hc with h | h
      · have hlt : (m + 1) % 10 < 10 := Nat.mod_lt _ (by norm_num)
        omega
      · exact ih _ c h

theorem natReprCodes_digits (n : Nat) : ∀ c ∈ natReprCodes n, 48 ≤ c ∧ c ≤ 57 := by
  intro c hc
  by_cases h : n = 0
  · subst h
    simp [natReprCodes] at hc
    omega
  · simp only [natReprCodes, h, if_false, List.mem_reverse] at hc
    exact decDigitsRevAux_digits n n c hc

theorem decVal_append (l : Str) (c : Nat) :
    decVal (l ++ [c]) = decVal l * 10 + (c - 48) := by
  simp [decVal, List.foldl_append]

theorem decVal_decDigitsRevAux :
    ∀ fuel n, n ≤ fuel → decVal ((decDigitsRevAux fuel n).reverse) = n := by
  intro fuel
  induction fuel with
  | zero =>
    intro n h
    have : n = 0 := Nat.le_zero.mp h
    subst this
    simp [decDigitsRevAux, decVal]
  | succ fuel ih =>
    intro n h
    match n with
    | 0 => simp [decDigitsRevAux, decVal]
    | m + 1 =>
      have hq : (m + 1) / 10 ≤ fuel := by
        have := Nat.div_lt_self (Nat.succ_pos m) (by norm_num : 1 < 10)
        omega
      simp only [decDigitsRevAux, List.reverse_cons]
      rw [decVal_append, ih _ hq]
      have h10 : (m + 1) % 10 < 10 := Nat.mod_lt _ (by norm_num)
      have hdm := Nat.div_add_mod (m + 1) 10
      omega

theorem decVal_natReprCodes (n : Nat) : decVal (natReprCodes n) = n := by
  by_cases h : n = 0
  · subst h
    simp [natReprCodes, decVal]
  · simp only [natReprCodes, h, if_false]
    exact decVal_decDigitsRevAux n n le_rfl

theorem natReprCodes_inj {a b : Nat} (h : natReprCodes a = natReprCodes b) :
    a = b := by
  have ha := decVal_natReprCodes a
  rw [h, decVal_natReprCodes b] at ha
  exact ha.symm

theorem sep_append_inj :
    ∀ (a b x y : Str), (∀ c ∈ a, c ≠ 58) → (∀ c ∈ b, c ≠ 58) →
      a ++ 58 :: x = b ++ 58 :: y → a = b ∧ x = y := by
  intro a
  induction a with
  | nil =>
    intro b x y _ hb h
    match b with
    | [] => simpa using h
    | d :: bs =>
      simp only [List.nil_append, List.cons_append, List.cons.injEq] at h
      exact absurd h.1.symm (hb d (List.mem_cons_self _ _))
  | cons c as ih =>
    intro b x y ha hb h
    match b with
    | [] =>
      simp only [List.cons_append, List.nil_append, List.cons.injEq] at h
      exact absurd h.1 (ha c (List.mem_cons_self _ _))
    | d :: bs =>
      simp only [List.cons_append, List.cons.injEq] at h
      obtain ⟨hcd, hrest⟩ := h
      obtain ⟨h1, h2⟩ := ih bs x y (fun u hu => ha u (List.mem_cons_of_mem _ hu))
        (fun u hu => hb u (List.mem_cons_of_mem _ hu)) hrest
      exact ⟨by rw [hcd, h1], h2⟩

theorem lineHashInput_shape (i p : Nat) (l : Str) :
    lineHashInput i p l =
      natReprCodes i ++ 58 :: (natReprCodes p ++ 58 :: l) := by
  simp [lineHashInput]

theorem lineHashInput_inj :
    ∀ (i p : Nat) (l : Str) (i' p' : Nat) (l' : Str),
      lineHashInput i p l = lineHashInput i' p' l' ↔ (i = i' ∧ p = p' ∧ l = l') := by
  intro i p l i' p' l'
  constructor
  · intro h
    rw [lineHashInput_shape, lineHashInput_shape] at h
    have hno : ∀ (n : Nat) (c : Nat), c ∈ natReprCodes n → c ≠ 58 := by
      intro n c hc
      have := natReprCodes_digits n c hc
      omega
    obtain ⟨h1, h2⟩ := sep_append_inj (natReprCodes i) (natReprCodes i') _ _
      (hno i) (hno i') h
    obtain ⟨h3, h4⟩ := sep_append_inj (natReprCodes p) (natReprCodes p') _ _
      (hno p) (hno p') h2
    exact ⟨natReprCodes_inj h1, natReprCodes_inj h3, h4⟩
  · rintro ⟨h1, h2, h3⟩
    rw [h1, h2, h3]

set_option maxRecDepth 1000000 in
/-- C8 counterexample: two log files whose single line differs only in
one raw byte (`0xFF` versus `0xFE`, both invalid UTF-8 inside the `user`
field) produce event rows with the same identity, the same offset and
the *same* `line_hash` although the raw line bytes differ — the key is
not a hash of the raw bytes, so "keys agree only if raw bytes agree" is
false. -/
theorem c8_counterexample :
    (collectEventsForFile logPath 5 rawLineFF 0).1.map CandRow.line_hash =
      (collectEventsForFile logPath 5 rawLineFE 0).1.map CandRow.line_hash ∧
    (collectEventsForFile logPath 5 rawLineFF 0).1.map CandRow.source_offset = [0] ∧
    rawLineFF ≠ rawLineFE :=
  ⟨by decide, by decide, by decide⟩

/-- C8 (amended): the stored dedup key is a deterministic hash of exactly
the triple (file identity, line start offset, *decoded* line text): two
occurrences whose raw bytes decode to the same text receive the same
key, and the pre-hash message `f"{inode}:{line_start}:{line}"` is in
bijection with that triple — it determines and is determined by it. -/
theorem c8_dedup_key_inputs (inode pos : Nat) (rawA rawB : Bytes)
    (hdec : utf8DecodeReplace rawA = utf8DecodeReplace rawB) :
    lineHash inode pos (utf8DecodeReplace rawA) =
      lineHash inode pos (utf8DecodeReplace rawB) ∧
    ∀ (i p : Nat) (l : Str) (i' p' : Nat) (l' : Str),
      lineHashInput i p l = lineHashInput i' p' l' ↔ (i = i' ∧ p = p' ∧ l = l') :=
  ⟨congrArg (lineHash inode pos) hdec, lineHashInput_inj⟩

/-- Witness for C8 (amended): the bytes `0xFF` and `0xFE` decode to the
same replacement text, so the keys they induce agree. -/
theorem c8_dedup_key_inputs_witness :
    utf8DecodeReplace [255] = utf8DecodeReplace [254] ∧
    (lineHash 5 0 (utf8DecodeReplace [255]) =
        lineHash 5 0 (utf8DecodeReplace [254]) ∧
      ∀ (i p : Nat) (l : Str) (i' p' : Nat) (l' : Str),
        lineHashInput i p l = lineHashInput i' p' l' ↔
          (i = i' ∧ p = p' ∧ l = l')) :=
  ⟨by decide, c8_dedup_key_inputs 5 0 [255] [254] (by decide)⟩
